import Mathlib

/-!
Shallow embedding of the portfolio analytics backend
(`backend/app/data/persistence/storage.py`, `backend/app/data/providers/yahoo.py`,
`backend/app/analytics/{metrics,returns,portfolio_agg,monte_carlo,regression}.py`).

Python floats are modelled as exact rationals (`ℚ`); values produced by
transcendental library calls (`** (1/years)`, `sqrt`) live in `ℝ`.
Python dicts are modelled as association lists with in-place replacement
(`dictInsert` / `dictGet`), mirroring CPython insertion-order semantics.
Raised exceptions are modelled with `Except`, one constructor per raise site.
-/

/-- Association-list lookup, first match wins (a Python dict holds each key
at most once, so first match is the only match). -/
def dictGet {α β : Type} [DecidableEq α] (k : α) : List (α × β) → Option β
  | [] => none
  | (k2, v) :: rest => if k = k2 then some v else dictGet k rest

/-- Association-list insert with in-place replacement: `m[k] = v` on a Python
dict keeps the original position of an existing key and appends a new key. -/
def dictInsert {α β : Type} [DecidableEq α] (k : α) (v : β) : List (α × β) → List (α × β)
  | [] => [(k, v)]
  | (k2, v2) :: rest => if k = k2 then (k, v) :: rest else (k2, v2) :: dictInsert k v rest

/- ### metrics.py -/

/-- The named errors raised by `backend/app/analytics/metrics.py`
(each `raise ValueError(...)` site gets one constructor). -/
inductive MetricsError : Type
  | nonPositiveYears
  | insufficientReturns
  | zeroVolatility
  | emptyReturns
  deriving DecidableEq, Repr

/-- `compute_cumulative_return`: `(1 + r1) * (1 + r2) * ... - 1`
(`metrics.py` lines 26-31, a running product over the list). -/
def compute_cumulative_return (returns : List ℚ) : ℚ :=
  returns.foldl (fun cumulative ret => cumulative * (1 + ret)) 1 - 1

/-- `compute_cagr` (`metrics.py` lines 34-43): raises for `years <= 0`,
otherwise `(1 + cumulative_return) ** (1 / years) - 1` (a real power). -/
noncomputable def compute_cagr (cumulative_return years : ℚ) : Except MetricsError ℝ :=
  if years ≤ 0 then .error .nonPositiveYears
  else .ok (Real.rpow (1 + (cumulative_return : ℝ)) ((1 : ℝ) / (years : ℝ)) - 1)

/-- Sample variance with `ddof=1`: `sum((x - mean)^2) / (n - 1)`; the square
root of this is what `np.std(returns_array, ddof=1)` returns. -/
def sampleVar (returns : List ℚ) : ℚ :=
  ((returns.map (fun x => (x - returns.sum / returns.length) ^ 2)).sum) /
    ((returns.length : ℚ) - 1)

/-- `compute_annualized_volatility` (`metrics.py` lines 46-63): raises for
fewer than 2 returns, else `std(returns, ddof=1) * sqrt(trading_days_per_year)`. -/
noncomputable def compute_annualized_volatility (returns : List ℚ) (trading_days_per_year : ℕ) :
    Except MetricsError ℝ :=
  if returns.length < 2 then .error .insufficientReturns
  else .ok (Real.sqrt (sampleVar returns) * Real.sqrt (trading_days_per_year : ℝ))

open Classical in
/-- `compute_sharpe_ratio` (`metrics.py` lines 91-123): raises for fewer than
2 returns; computes the annualized volatility (the length guard of
`compute_annualized_volatility` cannot fire again at this point), raises if it
is zero, else `(mean * trading_days_per_year - risk_free_rate) / volatility`. -/
noncomputable def compute_sharpe_ratio (returns : List ℚ) (risk_free_rate : ℚ)
    (trading_days_per_year : ℕ) : Except MetricsError ℝ :=
  if returns.length < 2 then .error .insufficientReturns
  else
    let volatility : ℝ := Real.sqrt (sampleVar returns) * Real.sqrt (trading_days_per_year : ℝ)
    if volatility = 0 then .error .zeroVolatility
    else .ok (((returns.sum / returns.length : ℚ) * trading_days_per_year - risk_free_rate) /
      volatility)

/- ### storage.py -/

/-- The store as a mapping from keys to byte blobs.  `FileStorage` addresses a
file by the SHA256 of the key; distinct keys give distinct paths, so the
mapping is modelled directly on keys.  Bytes are natural numbers below 256. -/
def Store : Type := List (String × List ℕ)

/-- Errors raised by `FileStorage` (`storage.py`): `BadRequestError` for empty
data or unreadable data, `NotFoundError` for a missing key. -/
inductive StorageError : Type
  | emptyDataOnWrite
  | keyNotFound
  | emptyStoredData
  deriving DecidableEq, Repr

/-- `FileStorage.exists` (`storage.py` lines 133-136). -/
def fileStorage_exists (store : Store) (key : String) : Bool :=
  (dictGet key store).isSome

/-- `FileStorage.read` (`storage.py` lines 138-181): `NotFoundError` when the
key is absent, `BadRequestError` when the stored blob is empty, else the bytes.
(The `OSError` branch is an I/O fault outside the model.) -/
def fileStorage_read (store : Store) (key : String) : Except StorageError (List ℕ) :=
  match dictGet key store with
  | none => .error .keyNotFound
  | some [] => .error .emptyStoredData
  | some data => .ok data

/-- `FileStorage.write` (`storage.py` lines 183-216): rejects empty data, then
writes to a temporary file and atomically renames it over the target path.
`temp_path.replace(path)` replaces the destination whether or not it already
exists, so an existing entry under the key is replaced.
(The `OSError` branch is an I/O fault outside the model.) -/
def fileStorage_write (store : Store) (key : String) (data : List ℕ) :
    Except StorageError Store :=
  if data = [] then .error .emptyDataOnWrite
  else .ok (dictInsert key data store)

/-- The provider-side store-if-absent step (`yahoo.py` lines 250-277): write
only when `exists` is false; a write failure is logged, not raised. -/
def store_if_absent (store : Store) (key : String) (data : List ℕ) : Store :=
  if fileStorage_exists store key then store
  else
    match fileStorage_write store key data with
    | .ok newStore => newStore
    | .error _ => store

/- ### yahoo.py: fetch-failure fallback (lines 281-376) -/

/-- A price series as far as the fallback logic inspects it: the bar list
(emptiness is checked) with payload details abstracted to one field per bar. -/
structure PriceSeriesQ : Type where
  bars : List (ℤ × ℚ)
  deriving DecidableEq, Repr

/-- A stored blob as the fallback reader sees it: JSON that decodes to the
expected structure, JSON that decodes to something else (the structure check
fails), or bytes that do not decode at all. -/
inductive StoredBlob : Type
  | wellFormed (series : PriceSeriesQ)
  | badStructure
  | undecodable
  deriving DecidableEq, Repr

/-- The provider-level exceptions of `app/core/exceptions.py`, plus a
constructor for an arbitrary upstream exception carrying its `str(e)`. -/
inductive ProviderError : Type
  | notFoundErr (msg : String)
  | providerUnavailableErr (provider msg : String)
  | badRequestErr (msg : String)
  | genericErr (msg : String)
  deriving DecidableEq, Repr

/-- `str(e)` of a provider error; `ProviderUnavailableError.__init__` composes
the provider name into the message. -/
def errMessage : ProviderError → String
  | .notFoundErr msg => msg
  | .providerUnavailableErr provider msg =>
      "Provider " ++ provider ++ " is unavailable: " ++ msg
  | .badRequestErr msg => msg
  | .genericErr msg => msg

/-- Does `pat` occur at the start of `s`? -/
def charsMatch : List Char → List Char → Bool
  | _, [] => true
  | [], _ :: _ => false
  | c :: s, p :: ps => c = p && charsMatch s ps

/-- Does `pat` occur anywhere in `s`?  (Python `pat in s`.) -/
def hasSubList (s pat : List Char) : Bool :=
  match s with
  | [] => charsMatch [] pat
  | _ :: rest => charsMatch s pat || hasSubList rest pat

/-- Python `pattern in msg` on strings. -/
def strContains (s pat : String) : Bool :=
  hasSubList s.toList pat.toList

/-- Python `str.lower()`, written directly on the character list. -/
def toLowerStr (s : String) : String :=
  ⟨s.data.map Char.toLower⟩

/-- `yahoo.py` lines 345-376: when no stored fallback exists, the original
fetch error is classified by substring patterns of its lowercased message and
a new `NotFoundError` or `ProviderUnavailableError` is raised in its place. -/
def classify_fetch_error (ticker startS endS : String) (e : ProviderError) : ProviderError :=
  let error_msg_lower := toLowerStr (errMessage e)
  let is_not_found := ["not found", "no data", "invalid", "does not exist", "symbol"].any
    (fun pattern => strContains error_msg_lower pattern)
  if is_not_found then
    .notFoundErr ("No price data available for ticker " ++ ticker ++
      " for date range " ++ startS ++ " to " ++ endS ++ ".")
  else
    .providerUnavailableErr "yahoo" "Market data provider is temporarily unavailable."

/-- `yahoo.py` lines 302-341: load and validate the stored blob during the
fallback (corrupt data raises `BadRequestError`, an empty bar list raises
`NotFoundError`, valid data is returned as the cached replay). -/
def load_stored_fallback (ticker startS endS : String) (blob : StoredBlob) :
    Except ProviderError PriceSeriesQ :=
  match blob with
  | .wellFormed series =>
      if series.bars = [] then
        .error (.notFoundErr ("No price data available for ticker " ++ ticker ++
          " for date range " ++ startS ++ " to " ++ endS ++ "."))
      else .ok series
  | .badStructure =>
      .error (.badRequestErr ("Price data for ticker " ++ ticker ++ " is corrupted or invalid."))
  | .undecodable =>
      .error (.badRequestErr ("Price data for ticker " ++ ticker ++ " is corrupted or invalid."))

/-- The whole `except` branch of `get_price_series` (`yahoo.py` lines 281-376):
re-check the store (`stored` is the result of that second `exists`/`read`);
serve the stored value if one exists, otherwise raise the classified error. -/
def fallback_after_fetch_failure (ticker startS endS : String) (e : ProviderError)
    (stored : Option StoredBlob) : Except ProviderError PriceSeriesQ :=
  match stored with
  | some blob => load_stored_fallback ticker startS endS blob
  | none => .error (classify_fetch_error ticker startS endS e)

/- ### returns.py -/

/-- `ReturnBar`: one daily return (`returns.py` lines 14-26). -/
structure ReturnBarQ : Type where
  trading_date : ℤ
  ret : ℚ
  deriving DecidableEq, Repr

/-- `ReturnSeries` (`returns.py` lines 29-34). -/
structure ReturnSeriesQ : Type where
  ticker : String
  returns : List ReturnBarQ
  deriving DecidableEq, Repr

/-- Errors raised by `align_return_series`. -/
inductive AlignError : Type
  | noCommonDates
  deriving DecidableEq, Repr

/-- The date set of one series: `{ret.trading_date for ret in rs.returns}`. -/
def datesOf (rs : ReturnSeriesQ) : List ℤ :=
  (rs.returns.map (fun b => b.trading_date)).dedup

/-- `return_map = {ret.trading_date: ret.return_ for ret in rs.returns}`:
a dict comprehension, later duplicates replacing earlier ones. -/
def return_map (rs : ReturnSeriesQ) : List (ℤ × ℚ) :=
  rs.returns.foldl (fun m b => dictInsert b.trading_date b.ret m) []

/-- `return_map[dt]`; the call sites only use dates from the intersection, so
the key is always present and the default is unreachable. -/
def lookupRet (rs : ReturnSeriesQ) (dt : ℤ) : ℚ :=
  (dictGet dt (return_map rs)).getD 0

/-- `set.intersection(*date_sets.values())`: fold pairwise intersection over
the value list, anchored at its first element (the call site guarantees the
list is non-empty). -/
def intersectAll : List (List ℤ) → List ℤ
  | [] => []
  | s :: rest => rest.foldl (fun acc t => acc.filter (fun d => d ∈ t)) s

/-- `align_return_series` (`returns.py` lines 80-118).  `original_start` and
`original_end` appear in the signature but are never used by the body. -/
def align_return_series (return_series_list : List ReturnSeriesQ)
    (original_start original_end : ℤ) : Except AlignError (List (String × List ℚ) × List ℤ) :=
  if return_series_list = [] then .ok ([], [])
  else
    let date_sets := return_series_list.foldl
      (fun m rs => dictInsert rs.ticker (datesOf rs) m) []
    let common_dates := intersectAll (date_sets.map Prod.snd)
    if common_dates = [] then .error .noCommonDates
    else
      let common_dates_sorted := List.insertionSort (fun a b => a ≤ b) common_dates
      let aligned := return_series_list.foldl
        (fun m rs => dictInsert rs.ticker (common_dates_sorted.map (lookupRet rs)) m) []
      .ok (aligned, common_dates_sorted)

/- ### portfolio_agg.py -/

/-- `Holding`: one (ticker, weight) pair (`portfolio/models.py`). -/
structure HoldingQ : Type where
  ticker : String
  weight : ℚ
  deriving DecidableEq, Repr

/-- `Portfolio`, restricted to the field `aggregate_portfolio_returns` reads. -/
structure PortfolioQ : Type where
  holdings : List HoldingQ
  deriving DecidableEq, Repr

/-- `PortfolioReturnSeries` (`portfolio_agg.py` lines 15-20). -/
structure PortfolioReturnSeriesQ : Type where
  dates : List ℤ
  returns : List ℚ
  benchmark_returns : Option (List ℚ)
  deriving DecidableEq, Repr

/-- Errors raised by `aggregate_portfolio_returns`, one per raise site. -/
inductive AggError : Type
  | emptyAligned
  | lengthMismatch
  | missingWeights (tickers : List String)
  deriving DecidableEq, Repr

/-- `weight_map = {holding.ticker: float(holding.weight) for holding in portfolio.holdings}`. -/
def weight_map (portfolio : PortfolioQ) : List (String × ℚ) :=
  portfolio.holdings.foldl (fun m h => dictInsert h.ticker h.weight m) []

/-- `sorted(aligned_returns.keys())`. -/
def sortedTickers (aligned_returns : List (String × List ℚ)) : List String :=
  List.insertionSort (fun a b => a ≤ b) (aligned_returns.map Prod.fst)

/-- `aggregate_portfolio_returns` (`portfolio_agg.py` lines 23-73).  The inner
accumulation loop `portfolio_return += weight * asset_returns[i]` is written as
the sum of the mapped list; defaults on the lookups are unreachable because the
guards have already established presence and length. -/
def aggregate_portfolio_returns (aligned_returns : List (String × List ℚ))
    (dates : List ℤ) (portfolio : PortfolioQ) (benchmark_returns : Option (List ℚ)) :
    Except AggError PortfolioReturnSeriesQ :=
  if aligned_returns = [] then .error .emptyAligned
  else
    let num_days := dates.length
    if ¬ (aligned_returns.all (fun p => p.2.length = num_days)) then .error .lengthMismatch
    else
      let wm := weight_map portfolio
      let sorted_tickers := sortedTickers aligned_returns
      let missing_weights := sorted_tickers.filter (fun t => (dictGet t wm).isNone)
      if missing_weights ≠ [] then .error (.missingWeights missing_weights)
      else
        let portfolio_returns := (List.range num_days).map (fun i =>
          (sorted_tickers.map (fun t =>
            ((dictGet t wm).getD 0) * (((dictGet t aligned_returns).getD []).getD i 0))).sum)
        .ok { dates := dates, returns := portfolio_returns,
              benchmark_returns := benchmark_returns }

/- ### monte_carlo.py -/

/-- The two values of the `method` literal type in `monte_carlo.py`. -/
inductive MCMethod : Type
  | historical_bootstrap
  | multivariate_normal
  deriving DecidableEq, Repr

/-- Errors raised by `simulate_monte_carlo` and the two generators, one
constructor per raise site (`monte_carlo.py` lines 339-353, 146-147, 228-229). -/
inductive MCError : Type
  | emptyHistoricalReturns
  | nonPositiveSimulations
  | nonPositiveHorizon
  | missingSeed
  deriving DecidableEq, Repr

/-- `SimulationMetadata`, restricted to the discrete fields (the `assumptions`
string list and the mean/volatility floats are carried along unchanged by the
code and inspected by no claim). -/
structure SimulationMetadataQ : Type where
  simulation_method : MCMethod
  number_of_simulations : ℕ
  horizon_days : ℕ
  random_seed : Option ℤ
  historical_returns_count : ℕ
  deriving DecidableEq, Repr

/-- `MonteCarloSimulation` (`monte_carlo.py` lines 70-98). -/
structure MonteCarloSimulationQ : Type where
  simulated_paths : List (List ℚ)
  cumulative_paths : List (List ℚ)
  metadata : SimulationMetadataQ
  deriving DecidableEq, Repr

/-- Deterministic stand-in for `np.random.default_rng(seed)`: the numpy PCG64
generator is a pure function of the seed and of the position of a draw in the
draw sequence, which is all the claims depend on.  Modelled as a concrete
integer mix so the embedding is executable. -/
def prngNat (seed : ℤ) (path day : ℕ) : ℕ :=
  (seed.natAbs * 2654435761 + path * 40503 + day * 69621 + 12345) % 4294967296

/-- One `rng.choice(historical_returns)` draw: a uniformly chosen index into
the historical sample (stand-in; the guard ensures the list is non-empty). -/
def bootstrapDraw (historical_returns : List ℚ) (seed : ℤ) (path day : ℕ) : ℚ :=
  historical_returns.getD (prngNat seed path day % historical_returns.length) 0

/-- One `rng.normal(loc=mean, scale=volatility)` draw (stand-in): a pure
function of the seed, the draw position, and the estimated parameters.  The
scale parameter is passed as the sample variance because the sample standard
deviation is irrational; no claim inspects the drawn values. -/
def normalDraw (seed : ℤ) (path day : ℕ) (mean variance : ℚ) : ℚ :=
  mean + variance * (((prngNat seed path day % 2001 : ℕ) : ℚ) - 1000) / 1000

/-- The cumulative-path loop of `monte_carlo.py` lines 168-174 and 257-263:
`cumulative = [0.0]`, append `cumulative[-1] + ret` per return, drop the
leading `0.0`.  Written as a recursion carrying the running total. -/
def cumFrom (acc : ℚ) : List ℚ → List ℚ
  | [] => []
  | ret :: rest => (acc + ret) :: cumFrom (acc + ret) rest

/-- `_estimate_statistics` (`monte_carlo.py` lines 101-119), with the second
component kept as the sample variance (`ddof=1`) rather than its square root. -/
def estimate_statistics (returns : List ℚ) : ℚ × ℚ :=
  (returns.sum / returns.length, sampleVar returns)

/-- `simulate_bootstrap` (`monte_carlo.py` lines 122-200).  A `None` seed makes
the source seed PCG64 from OS entropy; that case is outside the pure model
(`simulate_monte_carlo` rejects `None` before ever calling this) and is
modelled by seeding the stand-in with 0. -/
def simulate_bootstrap (historical_returns : List ℚ) (num_simulations horizon_days : ℕ)
    (random_seed : Option ℤ) : Except MCError MonteCarloSimulationQ :=
  if historical_returns = [] then .error .emptyHistoricalReturns
  else
    let s := random_seed.getD 0
    let simulated_paths := (List.range num_simulations).map (fun path =>
      (List.range horizon_days).map (fun day => bootstrapDraw historical_returns s path day))
    let cumulative_paths := simulated_paths.map (cumFrom 0)
    .ok { simulated_paths := simulated_paths
          cumulative_paths := cumulative_paths
          metadata := { simulation_method := .historical_bootstrap
                        number_of_simulations := num_simulations
                        horizon_days := horizon_days
                        random_seed := random_seed
                        historical_returns_count := historical_returns.length } }

/-- `simulate_multivariate_normal` (`monte_carlo.py` lines 203-286). -/
def simulate_multivariate_normal (historical_returns : List ℚ)
    (num_simulations horizon_days : ℕ) (random_seed : Option ℤ) :
    Except MCError MonteCarloSimulationQ :=
  if historical_returns = [] then .error .emptyHistoricalReturns
  else
    let stats := estimate_statistics historical_returns
    let s := random_seed.getD 0
    let simulated_paths := (List.range num_simulations).map (fun path =>
      (List.range horizon_days).map (fun day => normalDraw s path day stats.1 stats.2))
    let cumulative_paths := simulated_paths.map (cumFrom 0)
    .ok { simulated_paths := simulated_paths
          cumulative_paths := cumulative_paths
          metadata := { simulation_method := .multivariate_normal
                        number_of_simulations := num_simulations
                        horizon_days := horizon_days
                        random_seed := random_seed
                        historical_returns_count := historical_returns.length } }

/-- `simulate_monte_carlo` (`monte_carlo.py` lines 289-381): guards on empty
input, non-positive counts and a missing seed, then dispatches on the method.
The `Unknown simulation method` branch is unreachable here because `MCMethod`
carries exactly the two literal values admitted by the Python type. -/
def simulate_monte_carlo (historical_returns : List ℚ) (num_simulations horizon_days : ℤ)
    (method : MCMethod) (random_seed : Option ℤ) : Except MCError MonteCarloSimulationQ :=
  if historical_returns = [] then .error .emptyHistoricalReturns
  else if num_simulations ≤ 0 then .error .nonPositiveSimulations
  else if horizon_days ≤ 0 then .error .nonPositiveHorizon
  else
    match random_seed with
    | none => .error .missingSeed
    | some s =>
      match method with
      | .historical_bootstrap =>
          simulate_bootstrap historical_returns num_simulations.toNat horizon_days.toNat (some s)
      | .multivariate_normal =>
          simulate_multivariate_normal historical_returns num_simulations.toNat
            horizon_days.toNat (some s)

/- ### regression.py -/

/-- `AlignedFactorMatrix` (`analytics/factors.py` lines 23-49); the metadata
wrapper `AlignedFactorData` adds fields the regression never reads. -/
structure AlignedFactorMatrixQ : Type where
  dates : List ℤ
  portfolio_returns : List ℚ
  market_excess_returns : List ℚ
  smb_returns : List ℚ
  hml_returns : List ℚ
  risk_free_rates : List ℚ
  deriving DecidableEq, Repr

/-- Errors raised by `run_factor_regression`: the explicit minimum-observation
and rank checks, and the catch-all that wraps a numpy shape failure (raised
when the five series do not share the length of `dates`). -/
inductive RegressionError : Type
  | insufficientObservations
  | shapeMismatch
  | rankDeficient
  deriving DecidableEq, Repr

/-- `MIN_OBSERVATIONS` (`regression.py` line 23). -/
def MIN_OBSERVATIONS : ℕ := 30

/-- Number of observations: `len(matrix.dates)`. -/
def nObs (d : AlignedFactorMatrixQ) : ℕ := d.dates.length

/-- All five series have the length of `dates` (otherwise `np.column_stack` or
the vector arithmetic fails and the catch-all wraps it into a `ValueError`). -/
def shapeOk (d : AlignedFactorMatrixQ) : Bool :=
  d.portfolio_returns.length = nObs d ∧ d.market_excess_returns.length = nObs d ∧
    d.smb_returns.length = nObs d ∧ d.hml_returns.length = nObs d ∧
    d.risk_free_rates.length = nObs d

/-- The dependent variable `y = portfolio_returns - risk_free` per observation. -/
def yv (d : AlignedFactorMatrixQ) : Fin (nObs d) → ℚ :=
  fun i => d.portfolio_returns.getD i 0 - d.risk_free_rates.getD i 0

/-- The design matrix `X = [1, MKT-RF, SMB, HML]` by column. -/
def colX (d : AlignedFactorMatrixQ) : Fin 4 → Fin (nObs d) → ℚ :=
  ![fun _ => 1,
    fun i => d.market_excess_returns.getD i 0,
    fun i => d.smb_returns.getD i 0,
    fun i => d.hml_returns.getD i 0]

/-- The normal matrix `X'X`. -/
def XtX (d : AlignedFactorMatrixQ) : Matrix (Fin 4) (Fin 4) ℚ :=
  Matrix.of fun a b => ∑ i, colX d a i * colX d b i

/-- The moment vector `X'y`. -/
def Xty (d : AlignedFactorMatrixQ) : Fin 4 → ℚ :=
  fun a => ∑ i, colX d a i * yv d i

/-- The least-squares coefficients `np.linalg.lstsq(X, y)` returns for a
full-rank design: the unique solution of the normal equations
`X'X beta = X'y`, here written with the adjugate so it is executable. -/
def betaHat (d : AlignedFactorMatrixQ) : Fin 4 → ℚ :=
  ((XtX d).det)⁻¹ • ((XtX d).adjugate.mulVec (Xty d))

/-- Fitted values `X @ coefficients`. -/
def fittedY (d : AlignedFactorMatrixQ) : Fin (nObs d) → ℚ :=
  fun i => ∑ a, colX d a i * betaHat d a

/-- `ss_res = np.sum(residuals_array ** 2)`. -/
def ssRes (d : AlignedFactorMatrixQ) : ℚ :=
  ∑ i, (yv d i - fittedY d i) ^ 2

/-- `np.mean(y)`. -/
def meanY (d : AlignedFactorMatrixQ) : ℚ :=
  (∑ i, yv d i) / (nObs d : ℚ)

/-- `ss_tot = np.sum((y - np.mean(y)) ** 2)`. -/
def ssTot (d : AlignedFactorMatrixQ) : ℚ :=
  ∑ i, (yv d i - meanY d) ^ 2

/-- `r_squared = 1.0 - (ss_res / ss_tot) if ss_tot > 0 else 0.0`. -/
def rSquared (d : AlignedFactorMatrixQ) : ℚ :=
  if 0 < ssTot d then 1 - ssRes d / ssTot d else 0

/-- `adjusted_r_squared` with `k = 3` predictors (`regression.py` line 187). -/
def adjRSquared (d : AlignedFactorMatrixQ) : ℚ :=
  if 0 < (nObs d : ℤ) - 3 - 1 then
    1 - (1 - rSquared d) * ((nObs d : ℚ) - 1) / ((nObs d : ℚ) - 3 - 1)
  else 0

/-- `FactorRegressionResults`, restricted to the algebraic outputs (the
t-statistics and p-values go through `sqrt` and the Student-t CDF, which no
claim inspects). -/
structure FactorRegressionResultsQ : Type where
  alpha : ℚ
  market_beta : ℚ
  smb_beta : ℚ
  hml_beta : ℚ
  r_squared : ℚ
  adjusted_r_squared : ℚ
  num_observations : ℕ
  deriving DecidableEq, Repr

/-- `run_factor_regression` (`regression.py` lines 92-278): reject fewer than
`MIN_OBSERVATIONS` observations, reject inconsistent array lengths (the numpy
failure wrapped by the catch-all), reject a rank-deficient design — the n-by-4
design matrix has rank below 4 exactly when `det (X'X) = 0` — and otherwise
return the least-squares coefficients and the R-squared statistics. -/
def run_factor_regression (d : AlignedFactorMatrixQ) :
    Except RegressionError FactorRegressionResultsQ :=
  if nObs d < MIN_OBSERVATIONS then .error .insufficientObservations
  else if ¬ shapeOk d then .error .shapeMismatch
  else if (XtX d).det = 0 then .error .rankDeficient
  else .ok { alpha := betaHat d 0
             market_beta := betaHat d 1
             smb_beta := betaHat d 2
             hml_beta := betaHat d 3
             r_squared := rSquared d
             adjusted_r_squared := adjRSquared d
             num_observations := nObs d }

/-- The result shape `align_return_series` promises on the success path
(used to state the alignment claims compactly). -/
def AlignOutputSpec (rsl : List ReturnSeriesQ) (aligned : List (String × List ℚ))
    (sorted : List ℤ) : Prop :=
  sorted.Sorted (fun a b => a ≤ b) ∧ sorted.Nodup ∧
  (∀ d, d ∈ sorted ↔ ∀ rs ∈ rsl, d ∈ datesOf rs) ∧
  (∀ rs ∈ rsl, dictGet rs.ticker aligned = some (sorted.map (lookupRet rs)) ∧
    (sorted.map (lookupRet rs)).length = sorted.length ∧
    (∀ i, i < sorted.length → ∀ r : ℚ,
      ReturnBarQ.mk (sorted.getD i 0) r ∈ rs.returns →
        (sorted.map (lookupRet rs)).getD i 0 = r))

/- ### Helper lemmas about the dict model and lists -/

theorem dictGet_dictInsert_self {α β : Type} [DecidableEq α] (k : α) (v : β)
    (m : List (α × β)) : dictGet k (dictInsert k v m) = some v := by
  induction m with
  | nil => simp [dictGet, dictInsert]
  | cons p rest ih =>
    obtain ⟨k2, v2⟩ := p
    by_cases h : k = k2
    · simp [dictGet, dictInsert, h]
    · simp [dictGet, dictInsert, h, ih]

theorem dictGet_dictInsert_ne {α β : Type} [DecidableEq α] {k k2 : α} (h : k ≠ k2) (v : β)
    (m : List (α × β)) : dictGet k (dictInsert k2 v m) = dictGet k m := by
  induction m with
  | nil => simp [dictGet, dictInsert, h]
  | cons p rest ih =>
    obtain ⟨k3, v3⟩ := p
    by_cases h2 : k2 = k3
    · subst h2
      simp [dictGet, dictInsert, h]
    · by_cases h3 : k = k3
      · simp [dictGet, dictInsert, h2, h3]
      · simp [dictGet, dictInsert, h2, h3, ih]

theorem dictGet_foldl_insert_of_fresh {α β γ : Type} [DecidableEq α] (key : γ → α)
    (val : γ → β) (l : List γ) (m : List (α × β)) (k : α) (h : ∀ x ∈ l, key x ≠ k) :
    dictGet k (l.foldl (fun acc x => dictInsert (key x) (val x) acc) m) = dictGet k m := by
  induction l generalizing m with
  | nil => rfl
  | cons a rest ih =>
    have hk : k ≠ key a := fun he => h a (by simp) he.symm
    simp only [List.foldl_cons]
    rw [ih _ (fun x hx => h x (by simp [hx])), dictGet_dictInsert_ne hk]

theorem dictGet_foldl_insert_self {α β γ : Type} [DecidableEq α] (key : γ → α)
    (val : γ → β) (l : List γ) (m : List (α × β)) (x : γ) (hx : x ∈ l)
    (hnodup : (l.map key).Nodup) :
    dictGet (key x) (l.foldl (fun acc x => dictInsert (key x) (val x) acc) m) =
      some (val x) := by
  induction l generalizing m with
  | nil => simp at hx
  | cons a rest ih =>
    simp only [List.map_cons, List.nodup_cons] at hnodup
    rcases List.mem_cons.mp hx with he | hmem
    · subst he
      simp only [List.foldl_cons]
      rw [dictGet_foldl_insert_of_fresh _ _ _ _ _
          (fun z hz hzk => hnodup.1 (by rw [← hzk]; exact List.mem_map_of_mem key hz)),
        dictGet_dictInsert_self]
    · exact ih _ hmem hnodup.2

theorem dictInsert_of_fresh {α β : Type} [DecidableEq α] (k : α) (v : β)
    (m : List (α × β)) (h : ∀ p ∈ m, k ≠ p.1) : dictInsert k v m = m ++ [(k, v)] := by
  induction m with
  | nil => rfl
  | cons p rest ih =>
    obtain ⟨k2, v2⟩ := p
    have hk : ¬ k = k2 := h (k2, v2) (by simp)
    simp [dictInsert, hk, ih (fun q hq => h q (by simp [hq]))]

theorem foldl_insert_eq_append {α β γ : Type} [DecidableEq α] (key : γ → α) (val : γ → β)
    (l : List γ) (m : List (α × β)) (hdisj : ∀ x ∈ l, ∀ p ∈ m, key x ≠ p.1)
    (hnodup : (l.map key).Nodup) :
    l.foldl (fun acc x => dictInsert (key x) (val x) acc) m =
      m ++ l.map (fun x => (key x, val x)) := by
  induction l generalizing m with
  | nil => simp
  | cons a rest ih =>
    simp only [List.map_cons, List.nodup_cons] at hnodup
    simp only [List.foldl_cons]
    rw [dictInsert_of_fresh _ _ _ (hdisj a (by simp)),
      ih (m ++ [(key a, val a)]) ?_ hnodup.2]
    · simp
    · intro x hx p hp
      rcases List.mem_append.mp hp with hpm | hpa
      · exact hdisj x (by simp [hx]) p hpm
      · have : p = (key a, val a) := by simpa using hpa
        subst this
        exact fun he => hnodup.1 (by
          rw [← show key x = key a from he]
          exact List.mem_map_of_mem key hx)

theorem mem_foldl_filter (rest : List (List ℤ)) (s : List ℤ) (d : ℤ) :
    d ∈ rest.foldl (fun acc t => acc.filter (fun x => x ∈ t)) s ↔
      d ∈ s ∧ ∀ t ∈ rest, d ∈ t := by
  induction rest generalizing s with
  | nil => simp
  | cons t rest ih =>
    simp only [List.foldl_cons, ih, List.mem_filter, decide_eq_true_eq, List.mem_cons]
    constructor
    · rintro ⟨⟨hs, ht⟩, hrest⟩
      exact ⟨hs, fun u hu => hu.elim (fun he => he ▸ ht) (hrest u)⟩
    · rintro ⟨hs, hall⟩
      exact ⟨⟨hs, hall t (Or.inl rfl)⟩, fun u hu => hall u (Or.inr hu)⟩

theorem nodup_foldl_filter (rest : List (List ℤ)) (s : List ℤ) (h : s.Nodup) :
    (rest.foldl (fun acc t => acc.filter (fun x => x ∈ t)) s).Nodup := by
  induction rest generalizing s with
  | nil => exact h
  | cons t rest ih => exact ih _ (h.filter _)

theorem getD_map_of_lt {α β : Type} (f : α → β) (l : List α) (i : ℕ) (h : i < l.length)
    (d : β) (d2 : α) : (l.map f).getD i d = f (l.getD i d2) := by
  induction l generalizing i with
  | nil => simp at h
  | cons a rest ih =>
    cases i with
    | zero => simp
    | succ j => simpa using ih j (by simpa using h)

theorem range_getD {N i : ℕ} (h : i < N) (d : ℕ) : (List.range N).getD i d = i := by
  induction N with
  | zero => omega
  | succ n ih =>
    rcases Nat.lt_succ_iff_lt_or_eq.mp h with h2 | h2
    · rw [List.range_succ, List.getD_append _ _ _ _ (by simpa using h2), ih h2]
    · subst h2
      rw [List.range_succ]
      simp [List.getD_append_right, List.getD]

theorem getD_map_range {α : Type} (g : ℕ → α) {N i : ℕ} (h : i < N) (d : α) :
    ((List.range N).map g).getD i d = g i := by
  rw [getD_map_of_lt g _ i (by simpa using h) d 0, range_getD h]

theorem cumFrom_length (a : ℚ) (l : List ℚ) : (cumFrom a l).length = l.length := by
  induction l generalizing a with
  | nil => rfl
  | cons r rest ih => simp [cumFrom, ih]

theorem cumFrom_getD (a : ℚ) (l : List ℚ) (j : ℕ) (hj : j < l.length) :
    (cumFrom a l).getD j 0 = a + (l.take (j + 1)).sum := by
  induction l generalizing a j with
  | nil => simp at hj
  | cons r rest ih =>
    cases j with
    | zero => simp [cumFrom]
    | succ j2 =>
      have := ih (a + r) j2 (by simpa using hj)
      simp only [cumFrom, List.getD_cons_succ, List.take_succ_cons, List.sum_cons]
      rw [this]
      ring

theorem list_sum_of_all_eq (l : List ℚ) (c : ℚ) (h : ∀ x ∈ l, x = c) :
    l.sum = l.length * c := by
  induction l with
  | nil => simp
  | cons a rest ih =>
    have ha : a = c := h a (by simp)
    have := ih (fun x hx => h x (by simp [hx]))
    simp only [List.sum_cons, List.length_cons, this, ha]
    push_cast
    ring

theorem sampleVar_of_const (l : List ℚ) (c : ℚ) (hl : l ≠ []) (h : ∀ x ∈ l, x = c) :
    sampleVar l = 0 := by
  have hn : (l.length : ℚ) ≠ 0 := by
    simpa using List.length_pos.mpr hl |>.ne'
  have hmean : l.sum / l.length = c := by
    rw [list_sum_of_all_eq l c h, mul_div_assoc]
    field_simp
  have hzero : (l.map (fun x => (x - l.sum / l.length) ^ 2)).sum = 0 := by
    apply List.sum_eq_zero
    intro y hy
    obtain ⟨x, hx, rfl⟩ := List.mem_map.mp hy
    rw [h x hx, hmean]
    ring
  rw [sampleVar, hzero, zero_div]

/- ### C1: the store must never overwrite an existing key -/

/-- C1: the spec demands that after `write(key, d1)` a later `write(key, d2)`
is a no-op with the stored bytes still `d1`, and `storage.py` documents the
same ("Never overwrites existing data").  `FileStorage.write` instead renames
the fresh temp file over the existing path unconditionally, so the second
write replaces the bytes and `read` returns `d2`; only the provider-side
guarded step (`store_if_absent`) leaves the first value in place.  This
theorem evaluates the embedded code at that failing input. -/
theorem fileStorage_write_overwrites_existing_key :
    fileStorage_write [] "k" [1] = .ok [("k", [1])] ∧
    fileStorage_write [("k", [1])] "k" [2] = .ok [("k", [2])] ∧
    fileStorage_read [("k", [2])] "k" = .ok [2] ∧
    fileStorage_read [("k", [2])] "k" ≠ .ok [1] ∧
    store_if_absent [("k", [1])] "k" [2] = [("k", [1])] := by
  refine ⟨rfl, rfl, rfl, fun h => ?_, rfl⟩
  rw [show fileStorage_read [("k", [2])] "k" = Except.ok [2] from rfl,
    Except.ok.injEq] at h
  exact absurd h (by decide)

/- ### C2: fallback behavior after a failed fetch -/

/-- C2 counterexample: the fetch raised `NotFoundError` (empty upstream
response, `yahoo.py` line 207); with no stored fallback, the claim says this
exact error is propagated unchanged, but the classifier matches none of its
message patterns against the lowercased message and raises
`ProviderUnavailableError` instead — a different error kind, different
message. -/
theorem fetch_error_not_propagated_unchanged_cex :
    fallback_after_fetch_failure "AAPL" "2020-01-01" "2020-02-01"
      (.notFoundErr
        "No price data available for ticker AAPL for date range 2020-01-01 to 2020-02-01.")
      none =
      .error (.providerUnavailableErr "yahoo"
        "Market data provider is temporarily unavailable.") ∧
    ProviderError.providerUnavailableErr "yahoo"
        "Market data provider is temporarily unavailable." ≠
      ProviderError.notFoundErr
        "No price data available for ticker AAPL for date range 2020-01-01 to 2020-02-01." :=
  ⟨rfl, by decide⟩

/-- C2 (amended): on fetch failure the store is re-checked; a stored
well-formed value with a non-empty bar list is returned as the cached-replay
fallback; with no stored value, the raised error is not the original fetch
error but its deterministic re-classification by message substring patterns
(`classify_fetch_error`). -/
theorem fallback_replay_or_classified (ticker startS endS : String) (e : ProviderError)
    (series : PriceSeriesQ) (hbars : series.bars ≠ []) :
    fallback_after_fetch_failure ticker startS endS e (some (.wellFormed series)) =
      .ok series ∧
    fallback_after_fetch_failure ticker startS endS e none =
      .error (classify_fetch_error ticker startS endS e) := by
  constructor
  · simp [fallback_after_fetch_failure, load_stored_fallback, hbars]
  · rfl

/-- C2 witness: the amended claim instantiated at a concrete failed fetch with
a concrete stored series. -/
theorem fallback_replay_or_classified_witness :
    fallback_after_fetch_failure "AAPL" "2020-01-01" "2020-02-01" (.genericErr "timeout")
      (some (.wellFormed ⟨[(1, 1/2)]⟩)) = .ok ⟨[(1, 1/2)]⟩ ∧
    fallback_after_fetch_failure "AAPL" "2020-01-01" "2020-02-01" (.genericErr "timeout")
      none =
      .error (classify_fetch_error "AAPL" "2020-01-01" "2020-02-01" (.genericErr "timeout")) :=
  fallback_replay_or_classified "AAPL" "2020-01-01" "2020-02-01" (.genericErr "timeout")
    ⟨[(1, 1/2)]⟩ (by decide)

/- ### C4: cumulative return composes under concatenation -/

theorem foldl_compound_shift (l : List ℚ) (a : ℚ) :
    l.foldl (fun cumulative ret => cumulative * (1 + ret)) a =
      a * l.foldl (fun cumulative ret => cumulative * (1 + ret)) 1 := by
  induction l generalizing a with
  | nil => simp
  | cons r rest ih =>
    simp only [List.foldl_cons]
    rw [ih (a * (1 + r)), ih (1 * (1 + r))]
    ring

/-- C4: `compute_cumulative_return` over a concatenation equals the compounded
combination of the two parts, and the spec scenario
`[0.01, -0.02, 0.03] ==> 1.01*0.98*1.03 - 1` holds exactly. -/
theorem cumulative_return_concat_compound :
    (∀ xs ys : List ℚ, compute_cumulative_return (xs ++ ys) =
      (1 + compute_cumulative_return xs) * (1 + compute_cumulative_return ys) - 1) ∧
    compute_cumulative_return [1/100, -2/100, 3/100] =
      (101/100) * (98/100) * (103/100) - 1 := by
  constructor
  · intro xs ys
    simp only [compute_cumulative_return, List.foldl_append]
    rw [foldl_compound_shift ys]
    ring
  · norm_num [compute_cumulative_return]

/- ### C10: empty input list to alignment -/

/-- C10: with no return series supplied, `align_return_series` returns the
empty mapping and the empty date list without raising; the empty-intersection
error applies only when at least one series is present. -/
theorem align_empty_input_ok :
    ∀ original_start original_end : ℤ,
      align_return_series [] original_start original_end = .ok ([], []) :=
  fun _ _ => rfl

/- ### C5: fail-fast metric preconditions -/

/-- C5: each metric raises its specific named error instead of returning a
masking default: `compute_cagr` for every `years <= 0`,
`compute_annualized_volatility` and `compute_sharpe_ratio` for every list with
fewer than 2 returns, and `compute_sharpe_ratio` for every constant (hence
zero-volatility) return list. -/
theorem metrics_fail_fast :
    (∀ cumulative_return years : ℚ, years ≤ 0 →
      compute_cagr cumulative_return years = .error .nonPositiveYears) ∧
    (∀ (returns : List ℚ) (tdpy : ℕ), returns.length < 2 →
      compute_annualized_volatility returns tdpy = .error .insufficientReturns) ∧
    (∀ (returns : List ℚ) (rf : ℚ) (tdpy : ℕ), returns.length < 2 →
      compute_sharpe_ratio returns rf tdpy = .error .insufficientReturns) ∧
    (∀ (returns : List ℚ) (rf : ℚ) (tdpy : ℕ) (c : ℚ), 2 ≤ returns.length →
      (∀ x ∈ returns, x = c) →
      compute_sharpe_ratio returns rf tdpy = .error .zeroVolatility) := by
  refine ⟨?_, ?_, ?_, ?_⟩
  · intro c y h
    simp [compute_cagr, h]
  · intro returns tdpy h
    simp [compute_annualized_volatility, h]
  · intro returns rf tdpy h
    simp [compute_sharpe_ratio, h]
  · intro returns rf tdpy c hlen hconst
    have hne : returns ≠ [] := by
      intro he
      rw [he] at hlen
      simp at hlen
    have hv : sampleVar returns = 0 := sampleVar_of_const returns c hne hconst
    have hng : ¬ returns.length < 2 := by omega
    simp [compute_sharpe_ratio, hng, hv]

/-- C5 witness: the four fail-fast rules at concrete inputs. -/
theorem metrics_fail_fast_witness :
    compute_cagr 0 (-1) = .error .nonPositiveYears ∧
    compute_annualized_volatility [1/100] 252 = .error .insufficientReturns ∧
    compute_sharpe_ratio [1/100] 0 252 = .error .insufficientReturns ∧
    compute_sharpe_ratio [1/100, 1/100] 0 252 = .error .zeroVolatility :=
  ⟨metrics_fail_fast.1 0 (-1) (by norm_num),
   metrics_fail_fast.2.1 [1/100] 252 (by norm_num),
   metrics_fail_fast.2.2.1 [1/100] 0 252 (by norm_num),
   metrics_fail_fast.2.2.2 [1/100, 1/100] 0 252 (1/100) (by norm_num)
     (by intro x hx; rcases List.mem_cons.mp hx with h | h
         · exact h
         · simpa using h)⟩

/- ### C3: Monte Carlo determinism and mandatory seed -/

/-- C3: with identical historical input, method, counts and seed, two runs of
`simulate_monte_carlo` produce identical results (the generator is a pure
function of its arguments — numpy PCG64 seeded with an explicit integer holds
no hidden state), and a `None` seed is rejected with an error rather than
falling back to system randomness. -/
theorem monte_carlo_deterministic_and_seed_required
    (historical_returns : List ℚ) (num_simulations horizon_days : ℤ)
    (method : MCMethod) (s : ℤ)
    (hne : historical_returns ≠ []) (hN : 0 < num_simulations) (hH : 0 < horizon_days) :
    (∀ hr2 N2 H2 m2 s2, hr2 = historical_returns → N2 = num_simulations →
      H2 = horizon_days → m2 = method → s2 = s →
      simulate_monte_carlo hr2 N2 H2 m2 (some s2) =
        simulate_monte_carlo historical_returns num_simulations horizon_days method (some s)) ∧
    simulate_monte_carlo historical_returns num_simulations horizon_days method none =
      .error .missingSeed := by
  constructor
  · rintro hr2 N2 H2 m2 s2 rfl rfl rfl rfl rfl
    rfl
  · have h1 : ¬ num_simulations ≤ 0 := not_le.mpr hN
    have h2 : ¬ horizon_days ≤ 0 := not_le.mpr hH
    simp [simulate_monte_carlo, hne, h1, h2]

/-- C3 witness: determinism and the missing-seed error at a concrete input. -/
theorem monte_carlo_deterministic_and_seed_required_witness :
    simulate_monte_carlo [1/10] 2 3 .historical_bootstrap (some 42) =
      simulate_monte_carlo [1/10] 2 3 .historical_bootstrap (some 42) ∧
    simulate_monte_carlo [1/10] 2 3 .historical_bootstrap none = .error .missingSeed :=
  ⟨(monte_carlo_deterministic_and_seed_required [1/10] 2 3 .historical_bootstrap 42
      (by decide) (by norm_num) (by norm_num)).1 [1/10] 2 3 .historical_bootstrap 42
      rfl rfl rfl rfl rfl,
   (monte_carlo_deterministic_and_seed_required [1/10] 2 3 .historical_bootstrap 42
      (by decide) (by norm_num) (by norm_num)).2⟩

/- ### C9: simulated and cumulative matrices are N-by-H, cumulative accumulates -/

/-- C9: a simulation returned by either method has `simulated_paths` with
`N` rows of length `H`, `cumulative_paths` with `N` rows of length `H`, and
each cumulative row starts at 0 and accumulates the row's daily returns
(entry `j` is the sum of the first `j+1` returns of the row). -/
theorem monte_carlo_shape_and_accumulation
    (historical_returns : List ℚ) (num_simulations horizon_days : ℤ)
    (method : MCMethod) (random_seed : Option ℤ) (sim : MonteCarloSimulationQ)
    (h : simulate_monte_carlo historical_returns num_simulations horizon_days method
      random_seed = .ok sim) :
    sim.simulated_paths.length = num_simulations.toNat ∧
    (∀ p ∈ sim.simulated_paths, p.length = horizon_days.toNat) ∧
    sim.cumulative_paths.length = num_simulations.toNat ∧
    (∀ p ∈ sim.cumulative_paths, p.length = horizon_days.toNat) ∧
    (∀ i j, i < num_simulations.toNat → j < horizon_days.toNat →
      (sim.cumulative_paths.getD i []).getD j 0 =
        ((sim.simulated_paths.getD i []).take (j + 1)).sum) := by
  have main : ∀ (f : ℕ → ℕ → ℚ) (N H : ℕ),
      sim.simulated_paths = (List.range N).map (fun p => (List.range H).map (f p)) →
      sim.cumulative_paths = sim.simulated_paths.map (cumFrom 0) →
      sim.simulated_paths.length = N ∧
      (∀ p ∈ sim.simulated_paths, p.length = H) ∧
      sim.cumulative_paths.length = N ∧
      (∀ p ∈ sim.cumulative_paths, p.length = H) ∧
      (∀ i j, i < N → j < H →
        (sim.cumulative_paths.getD i []).getD j 0 =
          ((sim.simulated_paths.getD i []).take (j + 1)).sum) := by
    intro f N H hs hc
    have hlen : sim.simulated_paths.length = N := by simp [hs]
    refine ⟨hlen, ?_, ?_, ?_, ?_⟩
    · intro p hp
      rw [hs] at hp
      obtain ⟨q, _, rfl⟩ := List.mem_map.mp hp
      simp
    · simp [hc, hlen]
    · intro p hp
      rw [hc] at hp
      obtain ⟨q, hq, rfl⟩ := List.mem_map.mp hp
      rw [hs] at hq
      obtain ⟨r, _, rfl⟩ := List.mem_map.mp hq
      rw [cumFrom_length]
      simp
    · intro i j hi hj
      have hrow : sim.simulated_paths.getD i [] = (List.range H).map (f i) := by
        rw [hs]
        exact getD_map_range _ hi []
      have hrowlen : ((List.range H).map (f i)).length = H := by simp
      have hcrow : sim.cumulative_paths.getD i [] =
          cumFrom 0 (sim.simulated_paths.getD i []) := by
        rw [hc]
        rw [getD_map_of_lt _ _ i (by rw [hlen]; exact hi) [] []]
      rw [hcrow, hrow, cumFrom_getD 0 _ j (by rw [hrowlen]; exact hj), zero_add]
  unfold simulate_monte_carlo at h
  split at h
  · exact absurd h (by simp)
  · split at h
    · exact absurd h (by simp)
    · split at h
      · exact absurd h (by simp)
      · split at h
        · exact absurd h (by simp)
        · split at h
          · unfold simulate_bootstrap at h
            split at h
            · exact absurd h (by simp)
            · rw [Except.ok.injEq] at h
              subst h
              exact main _ _ _ rfl rfl
          · unfold simulate_multivariate_normal at h
            split at h
            · exact absurd h (by simp)
            · rw [Except.ok.injEq] at h
              subst h
              exact main _ _ _ rfl rfl

/-- C9 witness: a concrete bootstrap simulation (historical sample `[0]`, so
every draw is 0) produced by `simulate_monte_carlo`, checked for shape and
accumulation through the theorem. -/
theorem monte_carlo_shape_and_accumulation_witness :
    (∃ sim, simulate_monte_carlo [0] 2 3 .historical_bootstrap (some 42) = .ok sim ∧
      sim.simulated_paths.length = (2 : ℤ).toNat ∧
      (∀ p ∈ sim.simulated_paths, p.length = (3 : ℤ).toNat) ∧
      sim.cumulative_paths.length = (2 : ℤ).toNat ∧
      (∀ p ∈ sim.cumulative_paths, p.length = (3 : ℤ).toNat) ∧
      (∀ i j, i < (2 : ℤ).toNat → j < (3 : ℤ).toNat →
        (sim.cumulative_paths.getD i []).getD j 0 =
          ((sim.simulated_paths.getD i []).take (j + 1)).sum)) := by
  have h : simulate_monte_carlo [0] 2 3 .historical_bootstrap (some 42) =
      .ok { simulated_paths := (List.range 2).map (fun p => (List.range 3).map
              (fun day => bootstrapDraw [0] 42 p day))
            cumulative_paths := ((List.range 2).map (fun p => (List.range 3).map
              (fun day => bootstrapDraw [0] 42 p day))).map (cumFrom 0)
            metadata := { simulation_method := .historical_bootstrap
                          number_of_simulations := 2
                          horizon_days := 3
                          random_seed := some 42
                          historical_returns_count := 1 } } := by
    rfl
  exact ⟨_, h, monte_carlo_shape_and_accumulation [0] 2 3 .historical_bootstrap (some 42) _ h⟩

/- ### C6: weighted aggregation of aligned returns -/

/-- C6: with non-empty aligned returns whose series lengths all match the date
list, and a weight for each ticker present, `aggregate_portfolio_returns`
returns at each index `i` exactly the sum over tickers (in lexicographic
order) of `weight * return[i]`; and if any ticker lacks a weight, it raises
the missing-weights validation error instead of zero-weighting it. -/
theorem aggregate_weighted_spec (aligned_returns : List (String × List ℚ))
    (dates : List ℤ) (portfolio : PortfolioQ) (benchmark : Option (List ℚ))
    (hne : aligned_returns ≠ [])
    (hlen : ∀ p ∈ aligned_returns, p.2.length = dates.length) :
    ((∀ t ∈ aligned_returns.map Prod.fst, (dictGet t (weight_map portfolio)).isSome) →
      ∃ out, aggregate_portfolio_returns aligned_returns dates portfolio benchmark =
          .ok out ∧
        out.returns.length = dates.length ∧
        ∀ i, i < dates.length →
          out.returns.getD i 0 = ((sortedTickers aligned_returns).map (fun t =>
            ((dictGet t (weight_map portfolio)).getD 0) *
              (((dictGet t aligned_returns).getD []).getD i 0))).sum) ∧
    ((∃ t ∈ aligned_returns.map Prod.fst, (dictGet t (weight_map portfolio)).isNone) →
      ∃ missing, missing ≠ [] ∧
        aggregate_portfolio_returns aligned_returns dates portfolio benchmark =
          .error (.missingWeights missing)) := by
  have hall : aligned_returns.all (fun p => p.2.length = dates.length) = true := by
    rw [List.all_eq_true]
    intro p hp
    simp [hlen p hp]
  have hmemsort : ∀ t, t ∈ sortedTickers aligned_returns ↔
      t ∈ aligned_returns.map Prod.fst := fun t =>
    (List.perm_insertionSort (fun a b => a ≤ b) (aligned_returns.map Prod.fst)).mem_iff
  constructor
  · intro hsome
    have hmiss : (sortedTickers aligned_returns).filter
        (fun t => (dictGet t (weight_map portfolio)).isNone) = [] := by
      rw [List.filter_eq_nil_iff]
      intro t ht
      have := hsome t ((hmemsort t).mp ht)
      simp only [Option.isNone_iff_eq_none, decide_eq_true_eq]
      intro hn
      rw [hn] at this
      simp at this
    refine ⟨{ dates := dates
              returns := (List.range dates.length).map (fun i =>
                ((sortedTickers aligned_returns).map (fun t =>
                  ((dictGet t (weight_map portfolio)).getD 0) *
                    (((dictGet t aligned_returns).getD []).getD i 0))).sum)
              benchmark_returns := benchmark }, ?_, ?_, ?_⟩
    · unfold aggregate_portfolio_returns
      rw [if_neg hne, if_neg (by simp [hall]), if_neg (by simp [hmiss])]
    · simp
    · intro i hi
      exact getD_map_range _ hi 0
  · rintro ⟨t, ht, hnone⟩
    have htm : t ∈ sortedTickers aligned_returns := (hmemsort t).mpr ht
    have hmem : t ∈ (sortedTickers aligned_returns).filter
        (fun t => (dictGet t (weight_map portfolio)).isNone) := by
      rw [List.mem_filter]
      exact ⟨htm, by simp [Option.isNone_iff_eq_none,
        Option.isNone_iff_eq_none.mp (by simpa using hnone)]⟩
    refine ⟨_, List.ne_nil_of_mem hmem, ?_⟩
    unfold aggregate_portfolio_returns
    rw [if_neg hne, if_neg (by simp [hall]),
      if_pos (List.ne_nil_of_mem hmem)]

/-- C6 witness: two tickers with weights 3/5 and 2/5 aggregate to the weighted
sum at each index; dropping the weight for ticker B yields the
missing-weights error. -/
theorem aggregate_weighted_spec_witness :
    (∃ out, aggregate_portfolio_returns [("A", [1/10, 2/10]), ("B", [3/10, 4/10])]
        [5, 6] ⟨[⟨"A", 3/5⟩, ⟨"B", 2/5⟩]⟩ none = .ok out ∧
      out.returns.length = ([5, 6] : List ℤ).length ∧
      ∀ i, i < ([5, 6] : List ℤ).length →
        out.returns.getD i 0 =
          ((sortedTickers [("A", [1/10, 2/10]), ("B", [3/10, 4/10])]).map (fun t =>
            ((dictGet t (weight_map ⟨[⟨"A", 3/5⟩, ⟨"B", 2/5⟩]⟩)).getD 0) *
              (((dictGet t [("A", [1/10, 2/10]), ("B", [3/10, 4/10])]).getD []).getD i 0))).sum) ∧
    (∃ missing, missing ≠ [] ∧
      aggregate_portfolio_returns [("A", [1/10, 2/10]), ("B", [3/10, 4/10])]
        [5, 6] ⟨[⟨"A", 3/5⟩]⟩ none = .error (.missingWeights missing)) :=
  ⟨(aggregate_weighted_spec [("A", [1/10, 2/10]), ("B", [3/10, 4/10])] [5, 6]
      ⟨[⟨"A", 3/5⟩, ⟨"B", 2/5⟩]⟩ none (by decide) (by decide)).1 (by decide),
   (aggregate_weighted_spec [("A", [1/10, 2/10]), ("B", [3/10, 4/10])] [5, 6]
      ⟨[⟨"A", 3/5⟩]⟩ none (by decide) (by decide)).2 (by decide)⟩

/- ### C7: alignment by date intersection -/

/-- C7: for a non-empty collection of return series (tickers distinct, dates
unique within each series, as the upstream construction guarantees),
`align_return_series` fails when the date intersection is empty; otherwise it
returns exactly the intersected dates sorted ascending, and for each ticker a
returns list of the same length whose i-th element is that ticker's return on
the i-th sorted date. -/
theorem align_by_intersection_spec (rsl : List ReturnSeriesQ) (os oe : ℤ)
    (hne : rsl ≠ [])
    (htick : (rsl.map (fun rs => rs.ticker)).Nodup)
    (hdates : ∀ rs ∈ rsl, (rs.returns.map (fun b => b.trading_date)).Nodup) :
    (intersectAll (rsl.map datesOf) = [] →
      align_return_series rsl os oe = .error .noCommonDates) ∧
    (intersectAll (rsl.map datesOf) ≠ [] →
      ∃ aligned sorted, align_return_series rsl os oe = .ok (aligned, sorted) ∧
        AlignOutputSpec rsl aligned sorted) := by
  have hds : rsl.foldl (fun m rs => dictInsert rs.ticker (datesOf rs) m) [] =
      rsl.map (fun rs => (rs.ticker, datesOf rs)) := by
    have := foldl_insert_eq_append (fun rs => rs.ticker) datesOf rsl []
      (by intro x hx p hp; simp at hp) htick
    simpa using this
  have hvals : (rsl.map (fun rs => (rs.ticker, datesOf rs))).map Prod.snd =
      rsl.map datesOf := by
    rw [List.map_map]
    rfl
  have heq : align_return_series rsl os oe =
      (if intersectAll (rsl.map datesOf) = [] then .error .noCommonDates
       else .ok (rsl.foldl (fun m rs => dictInsert rs.ticker
           ((List.insertionSort (fun a b => a ≤ b)
             (intersectAll (rsl.map datesOf))).map (lookupRet rs)) m) [],
         List.insertionSort (fun a b => a ≤ b) (intersectAll (rsl.map datesOf)))) := by
    unfold align_return_series
    rw [if_neg hne]
    simp only [hds, hvals]
  constructor
  · intro h
    rw [heq, if_pos h]
  · intro h
    rw [heq, if_neg h]
    refine ⟨_, _, rfl, ?_, ?_, ?_, ?_⟩
    · exact List.sorted_insertionSort _ _
    · refine (List.perm_insertionSort _ _).nodup_iff.mpr ?_
      obtain ⟨r0, rest, rfl⟩ := List.exists_cons_of_ne_nil hne
      exact nodup_foldl_filter _ _ (List.nodup_dedup _)
    · intro d
      rw [(List.perm_insertionSort _ _).mem_iff]
      obtain ⟨r0, rest, rfl⟩ := List.exists_cons_of_ne_nil hne
      show d ∈ (rest.map datesOf).foldl
          (fun acc t => acc.filter (fun x => x ∈ t)) (datesOf r0) ↔ _
      rw [mem_foldl_filter]
      constructor
      · rintro ⟨h0, hall⟩ rs hrs
        rcases List.mem_cons.mp hrs with he | hm
        · exact he ▸ h0
        · exact hall _ (List.mem_map_of_mem datesOf hm)
      · intro hall
        refine ⟨hall r0 (by simp), ?_⟩
        intro t ht
        obtain ⟨rs, hrs, rfl⟩ := List.mem_map.mp ht
        exact hall rs (by simp [hrs])
    · intro rs hrs
      refine ⟨?_, by simp, ?_⟩
      · exact dictGet_foldl_insert_self (fun rs2 => rs2.ticker)
          (fun rs2 => (List.insertionSort (fun a b => a ≤ b)
            (intersectAll (rsl.map datesOf))).map (lookupRet rs2)) rsl [] rs hrs htick
      · intro i hi r hbar
        rw [getD_map_of_lt (lookupRet rs) _ i hi 0 0]
        have := dictGet_foldl_insert_self (fun b => b.trading_date) (fun b => b.ret)
          rs.returns [] (ReturnBarQ.mk ((List.insertionSort (fun a b => a ≤ b)
            (intersectAll (rsl.map datesOf))).getD i 0) r) hbar (hdates rs hrs)
        unfold lookupRet return_map
        rw [this]
        rfl

/-- C7 witness: tickers A (dates 1,2) and B (dates 2,3) intersect in date 2;
the aligned output satisfies the alignment contract. -/
theorem align_by_intersection_spec_witness :
    intersectAll ([ReturnSeriesQ.mk "A" [⟨1, 1/100⟩, ⟨2, 2/100⟩],
        ReturnSeriesQ.mk "B" [⟨2, 3/100⟩, ⟨3, 4/100⟩]].map datesOf) ≠ [] ∧
    ∃ aligned sorted,
      align_return_series [ReturnSeriesQ.mk "A" [⟨1, 1/100⟩, ⟨2, 2/100⟩],
        ReturnSeriesQ.mk "B" [⟨2, 3/100⟩, ⟨3, 4/100⟩]] 0 10 = .ok (aligned, sorted) ∧
      AlignOutputSpec [ReturnSeriesQ.mk "A" [⟨1, 1/100⟩, ⟨2, 2/100⟩],
        ReturnSeriesQ.mk "B" [⟨2, 3/100⟩, ⟨3, 4/100⟩]] aligned sorted :=
  ⟨by decide,
   (align_by_intersection_spec [ReturnSeriesQ.mk "A" [⟨1, 1/100⟩, ⟨2, 2/100⟩],
      ReturnSeriesQ.mk "B" [⟨2, 3/100⟩, ⟨3, 4/100⟩]] 0 10 (by decide) (by decide)
      (by decide)).2 (by decide)⟩

/- ### C8: factor regression guards and R-squared bounds -/

theorem XtX_mulVec_betaHat (d : AlignedFactorMatrixQ) (hdet : (XtX d).det ≠ 0) :
    (XtX d).mulVec (betaHat d) = Xty d := by
  unfold betaHat
  rw [Matrix.mulVec_smul, Matrix.mulVec_mulVec, Matrix.mul_adjugate,
    Matrix.smul_mulVec_assoc, Matrix.one_mulVec, smul_smul, inv_mul_cancel₀ hdet, one_smul]

theorem resid_orth (d : AlignedFactorMatrixQ) (hdet : (XtX d).det ≠ 0) (a : Fin 4) :
    ∑ i, colX d a i * (yv d i - fittedY d i) = 0 := by
  have hn := congrFun (XtX_mulVec_betaHat d hdet) a
  have expand : ∑ i, colX d a i * fittedY d i = ((XtX d).mulVec (betaHat d)) a := by
    calc ∑ i, colX d a i * fittedY d i
        = ∑ i, ∑ b, colX d a i * (colX d b i * betaHat d b) := by
          apply Finset.sum_congr rfl
          intro i _
          rw [show fittedY d i = ∑ b, colX d b i * betaHat d b from rfl, Finset.mul_sum]
      _ = ∑ b, ∑ i, colX d a i * (colX d b i * betaHat d b) := Finset.sum_comm
      _ = ∑ b, (∑ i, colX d a i * colX d b i) * betaHat d b := by
          apply Finset.sum_congr rfl
          intro b _
          rw [Finset.sum_mul]
          apply Finset.sum_congr rfl
          intro i _
          ring
      _ = ((XtX d).mulVec (betaHat d)) a := rfl
  calc ∑ i, colX d a i * (yv d i - fittedY d i)
      = (∑ i, colX d a i * yv d i) - ∑ i, colX d a i * fittedY d i := by
        rw [← Finset.sum_sub_distrib]
        apply Finset.sum_congr rfl
        intro i _
        ring
    _ = Xty d a - ((XtX d).mulVec (betaHat d)) a := by
        rw [expand]
        rfl
    _ = 0 := by rw [hn, sub_self]

theorem ssRes_le_ssTot (d : AlignedFactorMatrixQ) (hdet : (XtX d).det ≠ 0) :
    ssRes d ≤ ssTot d := by
  have h0 : ∑ i, (yv d i - fittedY d i) = 0 := by
    calc ∑ i, (yv d i - fittedY d i)
        = ∑ i, colX d 0 i * (yv d i - fittedY d i) := by
          apply Finset.sum_congr rfl
          intro i _
          rw [show colX d 0 i = 1 from rfl, one_mul]
      _ = 0 := resid_orth d hdet 0
  have hrf : ∑ i, (yv d i - fittedY d i) * fittedY d i = 0 := by
    calc ∑ i, (yv d i - fittedY d i) * fittedY d i
        = ∑ i, ∑ a, colX d a i * (yv d i - fittedY d i) * betaHat d a := by
          apply Finset.sum_congr rfl
          intro i _
          rw [show fittedY d i = ∑ a, colX d a i * betaHat d a from rfl, Finset.mul_sum]
          apply Finset.sum_congr rfl
          intro a _
          ring
      _ = ∑ a, ∑ i, colX d a i * (yv d i - fittedY d i) * betaHat d a := Finset.sum_comm
      _ = ∑ a, (∑ i, colX d a i * (yv d i - fittedY d i)) * betaHat d a := by
          apply Finset.sum_congr rfl
          intro a _
          rw [Finset.sum_mul]
      _ = 0 := by
          apply Finset.sum_eq_zero
          intro a _
          rw [resid_orth d hdet a, zero_mul]
  have key : ssTot d = ssRes d + ∑ i, (fittedY d i - meanY d) ^ 2 := by
    unfold ssTot ssRes
    have e1 : ∀ i : Fin (nObs d), (yv d i - meanY d) ^ 2 =
        (yv d i - fittedY d i) ^ 2 + (fittedY d i - meanY d) ^ 2 +
          (2 * ((yv d i - fittedY d i) * fittedY d i) -
            (2 * meanY d) * (yv d i - fittedY d i)) := by
      intro i
      ring
    rw [Finset.sum_congr rfl (fun i _ => e1 i), Finset.sum_add_distrib,
      Finset.sum_add_distrib, Finset.sum_sub_distrib, ← Finset.mul_sum, ← Finset.mul_sum,
      hrf, h0]
    ring
  have hs2 : 0 ≤ ∑ i, (fittedY d i - meanY d) ^ 2 :=
    Finset.sum_nonneg fun i _ => sq_nonneg _
  linarith [key, hs2]

/-- C8: `run_factor_regression` rejects fewer than the minimum 30 observations
and rank-deficient designs with specific errors; for at least 30 observations,
consistent array lengths and a full-rank design it succeeds with an R-squared
in `[0, 1]`. -/
theorem factor_regression_guards_and_r_squared_bounds :
    (∀ d : AlignedFactorMatrixQ, nObs d < MIN_OBSERVATIONS →
      run_factor_regression d = .error .insufficientObservations) ∧
    (∀ d : AlignedFactorMatrixQ, MIN_OBSERVATIONS ≤ nObs d → shapeOk d = true →
      (XtX d).det = 0 → run_factor_regression d = .error .rankDeficient) ∧
    (∀ d : AlignedFactorMatrixQ, MIN_OBSERVATIONS ≤ nObs d → shapeOk d = true →
      (XtX d).det ≠ 0 →
      ∃ res, run_factor_regression d = .ok res ∧
        0 ≤ res.r_squared ∧ res.r_squared ≤ 1) := by
  refine ⟨?_, ?_, ?_⟩
  · intro d h
    simp [run_factor_regression, h]
  · intro d h hs hdet
    have h2 : ¬ nObs d < MIN_OBSERVATIONS := not_lt.mpr h
    unfold run_factor_regression
    rw [if_neg h2, if_neg (by simp [hs]), if_pos hdet]
  · intro d h hs hdet
    have h2 : ¬ nObs d < MIN_OBSERVATIONS := not_lt.mpr h
    refine ⟨{ alpha := betaHat d 0, market_beta := betaHat d 1, smb_beta := betaHat d 2,
              hml_beta := betaHat d 3, r_squared := rSquared d,
              adjusted_r_squared := adjRSquared d, num_observations := nObs d },
      ?_, ?_, ?_⟩
    · unfold run_factor_regression
      rw [if_neg h2, if_neg (by simp [hs]), if_neg hdet]
    · show 0 ≤ rSquared d
      unfold rSquared
      split
      · rename_i hpos
        have hle : ssRes d / ssTot d ≤ 1 := (div_le_one hpos).mpr (ssRes_le_ssTot d hdet)
        linarith
      · exact le_refl 0
    · show rSquared d ≤ 1
      unfold rSquared
      split
      · rename_i hpos
        have hnn : 0 ≤ ssRes d := Finset.sum_nonneg fun i _ => sq_nonneg _
        have : 0 ≤ ssRes d / ssTot d := div_nonneg hnn (le_of_lt hpos)
        linarith
      · norm_num

theorem getD_replicate_zero (n i : ℕ) : (List.replicate n (0:ℚ)).getD i 0 = 0 := by
  induction n generalizing i with
  | zero => simp [List.getD]
  | succ m ih =>
    cases i with
    | zero => simp
    | succ j => simpa using ih j

/-- C8 witness: the three regression behaviors at concrete inputs — an empty
dataset (too few observations), thirty all-zero observations (rank-deficient
design), and thirty observations whose factor columns are the first three
coordinate vectors (full-rank design, R-squared within `[0, 1]`). -/
theorem factor_regression_guards_and_r_squared_bounds_witness :
    run_factor_regression ⟨[], [], [], [], [], []⟩ = .error .insufficientObservations ∧
    run_factor_regression ⟨List.replicate 30 0, List.replicate 30 0, List.replicate 30 0,
      List.replicate 30 0, List.replicate 30 0, List.replicate 30 0⟩ =
      .error .rankDeficient ∧
    ∃ res, run_factor_regression ⟨List.replicate 30 0, List.replicate 30 0,
        1 :: List.replicate 29 0, 0 :: 1 :: List.replicate 28 0,
        0 :: 0 :: 1 :: List.replicate 27 0, List.replicate 30 0⟩ = .ok res ∧
      0 ≤ res.r_squared ∧ res.r_squared ≤ 1 := by
  refine ⟨?_, ?_, ?_⟩
  · exact factor_regression_guards_and_r_squared_bounds.1 _
      (by norm_num [nObs, MIN_OBSERVATIONS])
  · refine factor_regression_guards_and_r_squared_bounds.2.1 _
      (by norm_num [nObs, MIN_OBSERVATIONS])
      (by decide) ?_
    apply Matrix.det_eq_zero_of_row_eq_zero 1
    intro j
    show (∑ i, colX _ 1 i * colX _ j i) = 0
    apply Finset.sum_eq_zero
    intro i _
    have h1 : colX (⟨List.replicate 30 0, List.replicate 30 0, List.replicate 30 0,
        List.replicate 30 0, List.replicate 30 0, List.replicate 30 0⟩ :
        AlignedFactorMatrixQ) 1 i = 0 := by
      show (List.replicate 30 (0:ℚ)).getD i 0 = 0
      exact getD_replicate_zero 30 i
    rw [h1, zero_mul]
  · set D : AlignedFactorMatrixQ := ⟨List.replicate 30 0, List.replicate 30 0,
      1 :: List.replicate 29 0, 0 :: 1 :: List.replicate 28 0,
      0 :: 0 :: 1 :: List.replicate 27 0, List.replicate 30 0⟩ with hD
    have hc0 : ∀ i : Fin (nObs D), colX D ⟨0, by norm_num⟩ i = 1 := fun _ => rfl
    have hc1 : ∀ i : Fin (nObs D), colX D ⟨1, by norm_num⟩ i =
        if i = (⟨0, by norm_num [nObs, hD]⟩ : Fin (nObs D)) then 1 else 0 := by
      intro i
      have he : colX D ⟨1, by norm_num⟩ i =
          (1 :: List.replicate 29 (0:ℚ)).getD (i : ℕ) 0 := rfl
      rw [he]
      rcases i with ⟨iv, hi⟩
      cases iv with
      | zero => simp
      | succ n =>
        simp only [List.getD_cons_succ, Fin.val_mk, getD_replicate_zero]
        simp [Fin.ext_iff]
    have hc2 : ∀ i : Fin (nObs D), colX D ⟨2, by norm_num⟩ i =
        if i = (⟨1, by norm_num [nObs, hD]⟩ : Fin (nObs D)) then 1 else 0 := by
      intro i
      have he : colX D ⟨2, by norm_num⟩ i =
          (0 :: 1 :: List.replicate 28 (0:ℚ)).getD (i : ℕ) 0 := rfl
      rw [he]
      rcases i with ⟨iv, hi⟩
      match iv with
      | 0 => simp [Fin.ext_iff]
      | 1 => simp [Fin.ext_iff]
      | Nat.succ (Nat.succ n) =>
        simp only [List.getD_cons_succ, Fin.val_mk, getD_replicate_zero]
        simp [Fin.ext_iff]
    have hc3 : ∀ i : Fin (nObs D), colX D ⟨3, by norm_num⟩ i =
        if i = (⟨2, by norm_num [nObs, hD]⟩ : Fin (nObs D)) then 1 else 0 := by
      intro i
      have he : colX D ⟨3, by norm_num⟩ i =
          (0 :: 0 :: 1 :: List.replicate 27 (0:ℚ)).getD (i : ℕ) 0 := rfl
      rw [he]
      rcases i with ⟨iv, hi⟩
      match iv with
      | 0 => simp [Fin.ext_iff]
      | 1 => simp [Fin.ext_iff]
      | 2 => simp [Fin.ext_iff]
      | Nat.succ (Nat.succ (Nat.succ n)) =>
        simp only [List.getD_cons_succ, Fin.val_mk, getD_replicate_zero]
        simp [Fin.ext_iff]
    have hXtX : XtX D = Matrix.of (fun a b : Fin 4 =>
        if (a : ℕ) = 0 ∧ (b : ℕ) = 0 then (30 : ℚ)
        else if (a : ℕ) = 0 ∨ (b : ℕ) = 0 then 1
        else if (a : ℕ) = (b : ℕ) then 1 else 0) := by
      ext a b
      fin_cases a <;> fin_cases b <;>
        (simp only [XtX, Matrix.of_apply, hc0, hc1, hc2, hc3, ite_mul, mul_ite,
          one_mul, mul_one, zero_mul, mul_zero, Finset.sum_ite_eq, Finset.sum_ite_eq',
          Finset.mem_univ, if_true, Finset.sum_const, Finset.card_univ, smul_eq_mul]
         norm_num [Fin.ext_iff, nObs, hD])
    have hdet : (XtX D).det ≠ 0 := by
      rw [hXtX]
      simp +decide only [Matrix.det_succ_row_zero, Fin.sum_univ_succ,
        Matrix.submatrix_apply, Matrix.of_apply]
      norm_num
    exact factor_regression_guards_and_r_squared_bounds.2.2 D
      (by norm_num [nObs, MIN_OBSERVATIONS, hD]) (by decide) hdet
